import Mathlib

/-!
Verification of the MCP generator/tester frontend (TypeScript) against its
specification.  The TypeScript sources are shallowly embedded: JSON values
parsed by `JSON.parse` become the inductive `Json`, JavaScript property
access / truthiness / `Object.entries` become explicit functions (property
access on `null` throws a `TypeError`, modelled by `Except Unit`), and the
React handlers become pure functions from the component state.
-/

namespace MCPGen

/-- JSON values as produced by `JSON.parse`.  Object fields are kept in
insertion order, as JavaScript does for non-index string keys. -/
inductive Json where
  | null
  | bool (b : Bool)
  | num (n : Int)
  | str (s : String)
  | arr (vs : List Json)
  | obj (kvs : List (String × Json))

/-- A JavaScript value read off a `Json` value: either a real value or
`undefined` (absent field). -/
inductive JsVal where
  | undefined
  | val (j : Json)

/-- JavaScript truthiness of a JSON value. -/
def truthyJ : Json → Bool
  | .null => false
  | .bool b => b
  | .num n => n != 0
  | .str s => s != ""
  | .arr _ => true
  | .obj _ => true

/-- JavaScript truthiness, with `undefined` falsy. -/
def truthyV : JsVal → Bool
  | .undefined => false
  | .val j => truthyJ j

/-- The underlying JSON value of a `JsVal` (only used under a truthiness
guard, which rules out `undefined`). -/
def JsVal.getJ : JsVal → Json
  | .undefined => Json.null
  | .val j => j

/-- JavaScript `a || b`: the value of `a` when truthy, else `b`. -/
def JsVal.orJ : JsVal → Json → Json
  | .undefined, d => d
  | .val j, d => if truthyJ j then j else d

/-- JavaScript property access `v[k]` for the (non-index) keys used by the
frontend: throws `TypeError` on `null`, looks the key up on objects, and
yields `undefined` on any other value. -/
def jsGet (v : Json) (k : String) : Except Unit JsVal :=
  match v with
  | .null => .error ()
  | .obj kvs =>
      match kvs.lookup k with
      | some j => .ok (.val j)
      | none => .ok .undefined
  | _ => .ok .undefined

/-- JavaScript `Object.entries`: throws on `null`, yields the key/value
pairs of an object in insertion order, index/character pairs of arrays and
strings, and `[]` on remaining primitives. -/
def jsEntries : Json → Except Unit (List (String × Json))
  | .null => .error ()
  | .obj kvs => .ok kvs
  | .arr vs => .ok (vs.enum.map fun p => (toString p.1, p.2))
  | .str s => .ok (s.data.enum.map fun p => (toString p.1, Json.str (String.mk [p.2])))
  | _ => .ok []

/-- ASCII upper-casing of one character, as `toUpperCase` acts on the
ASCII characters appearing in HTTP method names. -/
def upChar (c : Char) : Char :=
  if 'a' ≤ c ∧ c ≤ 'z' then Char.ofNat (c.toNat - 32) else c

/-- Model of `method.toUpperCase()` on ASCII strings. -/
def jsToUpper (s : String) : String :=
  String.mk (s.data.map upChar)

/-- Model of `path.replace(/[^a-zA-Z0-9]/g, '_')`: every character outside
`[a-zA-Z0-9]` becomes an underscore. -/
def slug (path : String) : String :=
  String.mk (path.data.map fun c => if c.isAlphanum then c else '_')

/-- Strip leading whitespace characters. -/
def dropWs : List Char → List Char
  | [] => []
  | c :: cs => if c.isWhitespace then dropWs cs else c :: cs

/-- JavaScript `s.trim()`: whitespace stripped from both ends. -/
def jsTrim (s : String) : String :=
  String.mk ((dropWs ((dropWs s.data.reverse)).reverse))

/-! ## `parseApiSpec` (frontend/src/components/mcp-generator.tsx) -/

/-- One entry of the `ParsedTool[]` list built by `parseApiSpec`.  `name`
and `description` are kept as JSON values: the code reads them off the
operation object with `||` fallbacks, so a truthy non-string survives. -/
structure ParsedTool where
  id : String
  name : Json
  description : Json
  method : String
  path : String
  selected : Bool

/-- The tool pushed for one `path` × `method` × `operation` triple
(mcp-generator.tsx lines 49-65).  Property access on a `null` operation
throws, which the surrounding `try` of `parseApiSpec` catches. -/
def toolOfOp (path method : String) (op : Json) : Except Unit ParsedTool := do
  let opId ← jsGet op "operationId"
  let name := opId.orJ (Json.str (method ++ "_" ++ slug path))
  let desc ← jsGet op "description"
  let summ ← jsGet op "summary"
  let description := desc.orJ (summ.orJ (Json.str (jsToUpper method ++ " " ++ path)))
  pure { id := method ++ "_" ++ path
         name := name
         description := description
         method := jsToUpper method
         path := path
         selected := true }

/-- Effectful map in document order, mirroring nested `forEach` loops in
which a thrown `TypeError` aborts the whole walk. -/
def mapE {α β : Type} (f : α → Except Unit β) : List α → Except Unit (List β)
  | [] => .ok []
  | x :: xs => do
    let y ← f x
    let ys ← mapE f xs
    pure (y :: ys)

/-- Model of `parseApiSpec` on an already-parsed specification document: walks
`spec.paths` in insertion order, each path's methods in insertion order,
and pushes one tool per operation.  `.error` is the `catch` branch (the
alert; no tools are stored). -/
def parseApiSpec (spec : Json) : Except Unit (List ParsedTool) := do
  let paths ← jsGet spec "paths"
  if truthyV paths then do
    let pathEntries ← jsEntries paths.getJ
    let toolLists ← mapE (fun pe => do
      let methodEntries ← jsEntries pe.2
      mapE (fun me => toolOfOp pe.1 me.1 me.2) methodEntries) pathEntries
    pure toolLists.flatten
  else
    pure []

/-! ## Configuration store (lib/store.ts) -/

/-- Transport protocols selectable in the configuration. -/
inductive Protocol where
  | stdio
  | http
  | sse
deriving Repr, DecidableEq

/-- The `MCPConfig` record from lib/store.ts. -/
structure MCPConfig where
  openaiApiKey : String
  mcpName : String
  protocolTypes : List Protocol
  description : String
  version : String
  author : String
  baseUrl : String
deriving Repr, DecidableEq

/-- The `defaultConfig` value from lib/store.ts. -/
def defaultConfig : MCPConfig :=
  { openaiApiKey := ""
    mcpName := "Generated MCP Server"
    protocolTypes := [.stdio]
    description := "MCP Server generated from API specification"
    version := "1.0.0"
    author := ""
    baseUrl := "" }

/-- The store's full state (`AppState` in lib/store.ts).  `generationResult`
and `testResult` are kept abstract as optional payloads. -/
structure AppState where
  isGenerating : Bool
  isTesting : Bool
  generationResult : Option String
  testResult : Option Json
  config : MCPConfig

/-- What `persist`'s `partialize` keeps: `(state) => ({ config: state.config })`. -/
structure PersistedState where
  config : MCPConfig
deriving Repr, DecidableEq

/-- The `partialize` function from the store's `persist` options. -/
def partialize (s : AppState) : PersistedState :=
  { config := s.config }

/-- Model of `Partial<MCPConfig>`: each field either absent or supplying a new value. -/
structure ConfigUpdates where
  openaiApiKey : Option String := none
  mcpName : Option String := none
  protocolTypes : Option (List Protocol) := none
  description : Option String := none
  version : Option String := none
  author : Option String := none
  baseUrl : Option String := none

/-- The object spread `{ ...config, ...updates }` used by `updateConfig`:
fields present in `updates` win, absent fields come from `config`. -/
def spreadConfig (c : MCPConfig) (u : ConfigUpdates) : MCPConfig :=
  { openaiApiKey := u.openaiApiKey.getD c.openaiApiKey
    mcpName := u.mcpName.getD c.mcpName
    protocolTypes := u.protocolTypes.getD c.protocolTypes
    description := u.description.getD c.description
    version := u.version.getD c.version
    author := u.author.getD c.author
    baseUrl := u.baseUrl.getD c.baseUrl }

/-- Model of `updateConfig`: `set({ config: { ...get().config, ...updates } })`. -/
def updateConfig (s : AppState) (u : ConfigUpdates) : AppState :=
  { s with config := spreadConfig s.config u }

/-- Configurations the store can hold via the Config tab: the default, or
the result of a Save click.  The Save button (mcp-config.tsx line 262) is
disabled unless `hasChanges` (the edited copy differs from the stored one)
and `tempConfig.protocolTypes.length !== 0`, so a save step carries both
facts. -/
inductive ConfigReachable : MCPConfig → Prop where
  | default : ConfigReachable defaultConfig
  | save (c t : MCPConfig) (h : ConfigReachable c) (hne : t ≠ c)
      (hp : t.protocolTypes ≠ []) : ConfigReachable t

/-! ## `handleGenerate` (frontend/src/components/mcp-generator.tsx) -/

/-- The nested `config` object of a `/generate` request body (lib/api.ts
`GenerateRequest`). -/
structure RequestConfig where
  openai_api_key : String
  mcp_name : String
  protocol_types : List Protocol
  description : String
  version : String
  author : String
deriving Repr, DecidableEq

/-- A `/generate` request body as assembled by `handleGenerate`. -/
structure GenerateRequest where
  api_spec : String
  system_prompt : String
  base_url : Option String
  selected_tools : Option (List String)
  config : RequestConfig

/-- The `MCPGenerator` component state feeding `handleGenerate`. -/
structure GeneratorState where
  apiSpec : String
  systemPrompt : String
  baseUrl : String
  parsedTools : List ParsedTool
  showToolSelection : Bool
  config : MCPConfig

/-- Model of `handleGenerate` (mcp-generator.tsx lines 100-134) up to the point the
request is issued: `none` means the handler returned without calling
`generateMCP` (one of the alert guards fired), `some req` is the request
passed to `generateMCP`. -/
def handleGenerate (s : GeneratorState) : Option GenerateRequest :=
  if jsTrim s.apiSpec = "" ∨ jsTrim s.systemPrompt = "" then none
  else if s.showToolSelection ∧ (s.parsedTools.filter (·.selected)).length = 0 then none
  else
    some { api_spec := s.apiSpec
           system_prompt := s.systemPrompt
           base_url :=
             if jsTrim s.baseUrl ≠ "" then some (jsTrim s.baseUrl)
             else if s.config.baseUrl ≠ "" then some s.config.baseUrl
             else none
           selected_tools :=
             if s.showToolSelection then
               some ((s.parsedTools.filter (·.selected)).map (·.id))
             else none
           config :=
             { openai_api_key := s.config.openaiApiKey
               mcp_name := s.config.mcpName
               protocol_types := s.config.protocolTypes
               description := s.config.description
               version := s.config.version
               author := s.config.author } }

/-! ## `checkMcpStatus` (the MCPTester component) -/

/-- Status values tracked by the tester's indicator. -/
inductive McpStatus where
  | unknown
  | active
  | inactive
deriving Repr, DecidableEq

/-- Outcome of the `fetch(url, { method: 'GET', signal: timeout(5000) })`
ping: an `ok` response, a non-`ok` response, or a thrown failure (network
error or the 5-second timeout firing). -/
inductive PingOutcome where
  | ok
  | notOk
  | failed
deriving Repr, DecidableEq

/-- Model of `checkMcpStatus`.  The `input` is the result of the leading guard and
`JSON.parse`: `none` when the textarea is blank or the JSON is unparseable
(both leave the status `unknown`), `some config` otherwise.  `ping` is the
environment's answer for a given URL value.  The second component records
which URL values were actually fetched.  A `TypeError` thrown by a property
access on `null` lands in the outer `catch`, hence `unknown`. -/
def checkMcpStatus (input : Option Json) (ping : Json → PingOutcome) :
    McpStatus × List Json :=
  match input with
  | none => (.unknown, [])
  | some config =>
    match jsGet config "mcpServers" with
    | .error _ => (.unknown, [])
    | .ok serversV =>
      let servers := serversV.orJ (Json.obj [])
      match jsEntries servers with
      | .error _ => (.unknown, [])
      | .ok serverEntries =>
        match serverEntries with
        | [] => (.inactive, [])
        | (_, serverConfig) :: _ =>
          match jsGet serverConfig "url" with
          | .error _ => (.unknown, [])
          | .ok urlV =>
            if truthyV urlV then
              match ping urlV.getJ with
              | .ok => (.active, [urlV.getJ])
              | .notOk => (.inactive, [urlV.getJ])
              | .failed => (.inactive, [urlV.getJ])
            else (.inactive, [])

/-- Specification-side reading of "the first server's url": the url value
of the first `mcpServers` entry, when the walk to it does not throw and the
value is truthy; given as a list of length at most one. -/
def firstServerUrl (input : Option Json) : List Json :=
  match input with
  | none => []
  | some config =>
    match jsGet config "mcpServers" with
    | .error _ => []
    | .ok serversV =>
      match jsEntries (serversV.orJ (Json.obj [])) with
      | .error _ => []
      | .ok [] => []
      | .ok ((_, serverConfig) :: _) =>
        match jsGet serverConfig "url" with
        | .error _ => []
        | .ok urlV => if truthyV urlV then [urlV.getJ] else []

/-! ## `downloadZip` (lib/api.ts) -/

/-- Numeric value of one hexadecimal digit (`0`-`9`, `a`-`f`, `A`-`F`,
code points 48-57, 97-102, 65-70), `none` otherwise. -/
def hexVal? (c : Char) : Option Nat :=
  if 48 ≤ c.toNat ∧ c.toNat ≤ 57 then some (c.toNat - 48)
  else if 97 ≤ c.toNat ∧ c.toNat ≤ 102 then some (c.toNat - 87)
  else if 65 ≤ c.toNat ∧ c.toNat ≤ 70 then some (c.toNat - 55)
  else none

/-- Model of `parseInt(two-char-string, 16)` for the two-character substrings taken
by `downloadZip`: both digits parse → their value; only the first parses →
that digit (`parseInt` accepts a valid prefix); a leading `"0x"`/`"0X"` or
a non-digit first character → `NaN`, modelled as `none`.  (Leading
whitespace or sign characters are outside the hexadecimal domain the claim
quantifies over and are not modelled.) -/
def parseHexPair (a b : Char) : Option Nat :=
  if a = '0' ∧ (b = 'x' ∨ b = 'X') then none
  else
    match hexVal? a with
    | none => none
    | some x =>
      match hexVal? b with
      | none => some x
      | some y => some (16 * x + y)

/-- The byte-filling loop of `downloadZip`: bytes are produced two input
characters at a time; `Uint8Array` stores `NaN` as `0` and wraps modulo
256. -/
def hexBytes : List Char → List Nat
  | a :: b :: rest => ((parseHexPair a b).getD 0) % 256 :: hexBytes rest
  | _ => []

/-- The `Blob` wrapped by `downloadZip`. -/
structure Blob where
  data : List Nat
  type : String
deriving Repr, DecidableEq

/-- Model of `downloadZip(zipData)` up to the produced blob: `new
Uint8Array(zipData.length / 2)` throws a `RangeError` on a fractional
length (odd input), modelled as `none`; otherwise the filled byte array is
wrapped in a blob of type `application/zip`. -/
def downloadZip (zipData : String) : Option Blob :=
  if zipData.length % 2 = 0 then
    some { data := hexBytes zipData.data, type := "application/zip" }
  else none

/-! ## Specification-side definitions

These follow the wording of the specification (document order of
operations, the per-operation name, ascending lexicographic order) and are
compared with the code-side functions above. -/

/-- The `(path, method, operation)` triples of a specification document in
declaration order, as walked by the nested `forEach` loops. -/
def docOps (spec : Json) : Except Unit (List (String × String × Json)) := do
  let paths ← jsGet spec "paths"
  if truthyV paths then do
    let pathEntries ← jsEntries paths.getJ
    let lists ← mapE (fun pe => do
      let methodEntries ← jsEntries pe.2
      pure (methodEntries.map fun me => (pe.1, me.1, me.2))) pathEntries
    pure lists.flatten
  else
    pure []

/-- The `(path, upper-cased method)` pairs of a document in declaration
order. -/
def docOrder (spec : Json) : Except Unit (List (String × String)) :=
  (docOps spec).map (List.map fun pmo => (pmo.1, jsToUpper pmo.2.1))

/-- The name derived for one operation in isolation: its `operationId`
when truthy, else `{method}_{slug(path)}`. -/
def nameOf (path method : String) (op : Json) : Except Unit Json := do
  let v ← jsGet op "operationId"
  pure (v.orJ (Json.str (method ++ "_" ++ slug path)))

/-- The per-operation names of a document in declaration order. -/
def docNames (spec : Json) : Except Unit (List Json) := do
  let ops ← docOps spec
  mapE (fun pmo => nameOf pmo.1 pmo.2.1 pmo.2.2) ops

/-- Strict lexicographic comparison of character lists by code point. -/
def charListLt : List Char → List Char → Bool
  | [], [] => false
  | [], _ :: _ => true
  | _ :: _, [] => false
  | a :: as, b :: bs =>
    if a.val < b.val then true
    else if b.val < a.val then false
    else charListLt as bs

/-- Comparison `a ≤ b` on strings, by code-point lexicographic order. -/
def strLeB (a b : String) : Bool :=
  a == b || charListLt a.data b.data

/-- Comparison `x ≤ y` on `(path, method)` pairs, lexicographically. -/
def pairLeB (x y : String × String) : Bool :=
  charListLt x.1.data y.1.data || (x.1 == y.1 && strLeB x.2 y.2)

/-- Whether a list of `(path, method)` pairs is in ascending lexicographic
order. -/
def lexSortedB : List (String × String) → Bool
  | [] => true
  | [_] => true
  | x :: y :: rest => pairLeB x y && lexSortedB (y :: rest)

/-- Property access for non-`null` values, as a total function (the
`TypeError` case is split off by `jsGet_ok`). -/
def jsGetV (v : Json) (k : String) : JsVal :=
  match v with
  | .obj kvs =>
      match kvs.lookup k with
      | some j => .val j
      | none => .undefined
  | _ => .undefined

/-! ## Basic lemmas -/

@[simp] theorem okBind {α β : Type} (a : α) (f : α → Except Unit β) :
    (Except.ok a : Except Unit α) >>= f = f a := rfl

@[simp] theorem errBind {α β : Type} (e : Unit) (f : α → Except Unit β) :
    (Except.error e : Except Unit α) >>= f = Except.error e := rfl

@[simp] theorem pureEq {α : Type} (a : α) :
    (pure a : Except Unit α) = Except.ok a := rfl

theorem jsGet_ok (v : Json) (k : String) (h : v ≠ .null) :
    jsGet v k = .ok (jsGetV v k) := by
  cases v with
  | null => exact absurd rfl h
  | obj kvs => simp only [jsGet, jsGetV]; cases kvs.lookup k <;> rfl
  | _ => rfl

theorem orJ_eq (v : JsVal) (d : Json) :
    v.orJ d = if truthyV v then v.getJ else d := by
  cases v with
  | undefined => rfl
  | val j => simp [JsVal.orJ, truthyV, JsVal.getJ]

theorem mapE_ok_forall2 {α β : Type} (f : α → Except Unit β) :
    ∀ {xs : List α} {ys : List β}, mapE f xs = .ok ys →
      List.Forall₂ (fun x y => f x = .ok y) xs ys := by
  intro xs
  induction xs with
  | nil =>
    intro ys h
    simp only [mapE, Except.ok.injEq] at h
    subst h
    exact .nil
  | cons x xs ih =>
    intro ys h
    simp only [mapE, bind, Except.bind] at h
    cases hfx : f x with
    | error e => rw [hfx] at h; exact absurd h (by simp)
    | ok y =>
      rw [hfx] at h
      cases hm : mapE f xs with
      | error e => rw [hm] at h; exact absurd h (by simp)
      | ok ys' =>
        rw [hm] at h
        simp only [pure, Except.pure, Except.ok.injEq] at h
        subst h
        exact .cons hfx (ih hm)

theorem forall2_mapE_ok {α β : Type} (f : α → Except Unit β) :
    ∀ {xs : List α} {ys : List β},
      List.Forall₂ (fun x y => f x = .ok y) xs ys → mapE f xs = .ok ys := by
  intro xs ys h
  induction h with
  | nil => rfl
  | cons h1 h2 ih =>
    simp only [mapE, bind, Except.bind, h1, ih, pure, Except.pure]

theorem forall2_exists_left {α β : Type} {R : α → β → Prop} :
    ∀ {xs : List α} {ys : List β}, List.Forall₂ R xs ys →
      ∀ y ∈ ys, ∃ x ∈ xs, R x y := by
  intro xs ys h
  induction h with
  | nil => intro y hy; exact absurd hy (by simp)
  | cons h1 h2 ih =>
    intro y hy
    rcases List.mem_cons.mp hy with rfl | hy'
    · exact ⟨_, List.mem_cons_self _ _, h1⟩
    · obtain ⟨x, hx, hr⟩ := ih y hy'
      exact ⟨x, List.mem_cons_of_mem _ hx, hr⟩

theorem forall2_map_eq {α β γ : Type} {R : α → β → Prop} {f : α → γ} {g : β → γ}
    (hfg : ∀ a b, R a b → f a = g b) :
    ∀ {xs : List α} {ys : List β}, List.Forall₂ R xs ys → xs.map f = ys.map g := by
  intro xs ys h
  induction h with
  | nil => rfl
  | cons h1 _ ih => simp [hfg _ _ h1, ih]

/-- Full characterization of a successful `toolOfOp`. -/
theorem toolOfOp_ok_iff (p m : String) (op : Json) (t : ParsedTool) :
    toolOfOp p m op = .ok t ↔
      op ≠ Json.null ∧
      t = { id := m ++ "_" ++ p
            name := (jsGetV op "operationId").orJ (Json.str (m ++ "_" ++ slug p))
            description := (jsGetV op "description").orJ
              ((jsGetV op "summary").orJ (Json.str (jsToUpper m ++ " " ++ p)))
            method := jsToUpper m
            path := p
            selected := true } := by
  by_cases hn : op = Json.null
  · subst hn
    simp [toolOfOp, jsGet]
  · simp only [toolOfOp, jsGet_ok op _ hn, okBind, pureEq, Except.ok.injEq]
    exact ⟨fun h => ⟨hn, h.symm⟩, fun h => h.2.symm⟩

/-- The nested walk of `parseApiSpec` matched with the document-order
triples of `docOps`, per path entry list. -/
theorem parse_core :
    ∀ (pes : List (String × Json)) (tss : List (List ParsedTool)),
      mapE (fun pe => do
        let methodEntries ← jsEntries pe.2
        mapE (fun me => toolOfOp pe.1 me.1 me.2) methodEntries) pes = .ok tss →
      ∃ oss : List (List (String × String × Json)),
        mapE (fun pe => do
          let methodEntries ← jsEntries pe.2
          pure (methodEntries.map fun me => (pe.1, me.1, me.2))) pes = .ok oss ∧
        List.Forall₂
          (List.Forall₂ fun pmo t => toolOfOp pmo.1 pmo.2.1 pmo.2.2 = .ok t)
          oss tss := by
  intro pes
  induction pes with
  | nil =>
    intro tss h
    simp only [mapE, Except.ok.injEq] at h
    subst h
    exact ⟨[], rfl, .nil⟩
  | cons pe pes ih =>
    intro tss h
    simp only [mapE] at h ⊢
    cases hme : jsEntries pe.2 with
    | error e => rw [hme] at h; simp at h
    | ok mes =>
      rw [hme] at h
      simp only [okBind] at h
      cases hinner : mapE (fun me => toolOfOp pe.1 me.1 me.2) mes with
      | error e => rw [hinner] at h; simp at h
      | ok ts =>
        rw [hinner] at h
        simp only [okBind] at h
        cases hrest : mapE (fun pe => do
            let methodEntries ← jsEntries pe.2
            mapE (fun me => toolOfOp pe.1 me.1 me.2) methodEntries) pes with
        | error e => rw [hrest] at h; simp at h
        | ok tss' =>
          rw [hrest] at h
          simp only [okBind, pureEq, Except.ok.injEq] at h
          subst h
          obtain ⟨oss', hoss', hF⟩ := ih tss' hrest
          simp only [pureEq] at hoss'
          refine ⟨(mes.map fun me => (pe.1, me.1, me.2)) :: oss', ?_, ?_⟩
          · simp only [pureEq, okBind, hoss']
          · refine .cons ?_ hF
            exact List.forall₂_map_left_iff.mpr (mapE_ok_forall2 _ hinner)

/-- Every successful `parseApiSpec` is the pointwise image under
`toolOfOp` of the document-order operation triples. -/
theorem parse_docOps (spec : Json) (tools : List ParsedTool)
    (hp : parseApiSpec spec = .ok tools) :
    ∃ ops : List (String × String × Json),
      docOps spec = .ok ops ∧
      List.Forall₂ (fun pmo t => toolOfOp pmo.1 pmo.2.1 pmo.2.2 = .ok t) ops tools := by
  simp only [parseApiSpec, docOps] at hp ⊢
  cases hpv : jsGet spec "paths" with
  | error e => rw [hpv] at hp; simp at hp
  | ok pv =>
    rw [hpv] at hp
    simp only [okBind] at hp ⊢
    cases htv : truthyV pv with
    | false =>
      rw [htv] at hp
      simp only [Bool.false_eq_true, if_false, pureEq, Except.ok.injEq] at hp
      subst hp
      exact ⟨[], by simp, .nil⟩
    | true =>
      rw [htv] at hp
      simp only [if_true] at hp
      cases hpe : jsEntries pv.getJ with
      | error e => rw [hpe] at hp; simp at hp
      | ok pes =>
        rw [hpe] at hp
        simp only [okBind] at hp
        cases houter : mapE (fun pe => do
            let methodEntries ← jsEntries pe.2
            mapE (fun me => toolOfOp pe.1 me.1 me.2) methodEntries) pes with
        | error e => rw [houter] at hp; simp at hp
        | ok tss =>
          rw [houter] at hp
          simp only [okBind, pureEq, Except.ok.injEq] at hp
          subst hp
          obtain ⟨oss, hoss, hF⟩ := parse_core pes tss houter
          simp only [pureEq] at hoss
          refine ⟨oss.flatten, ?_, List.rel_flatten hF⟩
          simp only [htv, if_true, hpe, pureEq, okBind, hoss]

/-! ## Claim C1: derived tool name -/

/-- An operation that declares an `operationId`, but the empty string. -/
def c1Op : Json := .obj [("operationId", .str "")]

/-- Specification document exercising the empty `operationId`. -/
def c1Spec : Json := .obj [("paths", .obj [("/x", .obj [("get", c1Op)])])]

/-- Claim C1 fails as stated: the operation of `c1Spec` declares the
operation identifier `""`, yet the derived tool name is the fallback
`get__x` (the `||` fallback treats any falsy identifier as absent), not
the declared identifier. -/
theorem c1_counterexample :
    jsGet c1Op "operationId" = .ok (.val (Json.str "")) ∧
    (parseApiSpec c1Spec).map (fun ts => ts.map ParsedTool.name)
      = .ok [Json.str "get__x"] ∧
    Json.str "get__x" ≠ Json.str "" :=
  ⟨rfl, rfl, by simp⟩

/-- Claim C1 (amended): for every operation in the parsed API description,
the derived tool name equals the operation's declared operation identifier
when that identifier is truthy (in particular, any non-empty string);
otherwise — including when the declared identifier is the empty string or
another falsy value — it equals the HTTP method, an underscore, and the
path with every non-alphanumeric character replaced by an underscore. -/
theorem c1_tool_name (spec : Json) (tools : List ParsedTool)
    (hp : parseApiSpec spec = .ok tools) (t : ParsedTool) (ht : t ∈ tools) :
    ∃ path method op, toolOfOp path method op = .ok t ∧
      t.name = (if truthyV (jsGetV op "operationId")
                then (jsGetV op "operationId").getJ
                else Json.str (method ++ "_" ++ slug path)) := by
  obtain ⟨ops, hops, hF⟩ := parse_docOps spec tools hp
  obtain ⟨pmo, hmem, hok⟩ := forall2_exists_left hF t ht
  refine ⟨pmo.1, pmo.2.1, pmo.2.2, hok, ?_⟩
  obtain ⟨hn, ht'⟩ := (toolOfOp_ok_iff _ _ _ _).mp hok
  rw [ht']
  exact orJ_eq _ _

/-- Document and tool used to witness `c1_tool_name`. -/
def c1WSpec : Json :=
  .obj [("paths", .obj [("/u", .obj [("get", .obj [("operationId", .str "opA")])])])]

/-- The tool parsed from `c1WSpec`. -/
def c1WTool : ParsedTool :=
  { id := "get_/u"
    name := .str "opA"
    description := .str "GET /u"
    method := "GET"
    path := "/u"
    selected := true }

theorem c1_tool_name_witness :
    ∃ path method op, toolOfOp path method op = .ok c1WTool ∧
      c1WTool.name = (if truthyV (jsGetV op "operationId")
                      then (jsGetV op "operationId").getJ
                      else Json.str (method ++ "_" ++ slug path)) :=
  c1_tool_name c1WSpec [c1WTool] rfl c1WTool (List.mem_singleton.mpr rfl)

/-! ## Claim C2: ordering of the tool list -/

/-- A document declaring path `/b` before `/a`. -/
def c2CexSpec : Json := .obj [("paths", .obj
  [("/b", .obj [("get", .obj [])]), ("/a", .obj [("get", .obj [])])])]

/-- Claim C2 fails as stated: parsing `c2CexSpec` yields the `/b` tool
before the `/a` tool, so the list is not ascending in the lexicographic
`(path, method)` order. -/
theorem c2_counterexample :
    (parseApiSpec c2CexSpec).map (fun ts => ts.map fun t => (t.path, t.method))
      = .ok [("/b", "GET"), ("/a", "GET")] ∧
    lexSortedB [("/b", "GET"), ("/a", "GET")] = false :=
  ⟨rfl, rfl⟩

/-- Claim C2 (amended): the tool list follows the declaration order of the
document — paths in insertion order and, within each path, methods in
insertion order — rather than ascending lexicographic `(path, method)`
order; parsing is a pure function, so resolving the same description twice
yields identical tool names and ordering. -/
theorem c2_doc_order (spec : Json) (tools : List ParsedTool)
    (hp : parseApiSpec spec = .ok tools) :
    parseApiSpec spec = parseApiSpec spec ∧
    docOrder spec = .ok (tools.map fun t => (t.path, t.method)) := by
  refine ⟨rfl, ?_⟩
  obtain ⟨ops, hops, hF⟩ := parse_docOps spec tools hp
  have hmap : ops.map (fun pmo => (pmo.1, jsToUpper pmo.2.1))
      = tools.map (fun t => (t.path, t.method)) := by
    refine forall2_map_eq ?_ hF
    intro pmo t hok
    obtain ⟨hn, ht'⟩ := (toolOfOp_ok_iff _ _ _ _).mp hok
    rw [ht']
  simp [docOrder, hops, Except.map, hmap]

/-- Document used to witness `c2_doc_order`. -/
def c2WSpec : Json :=
  .obj [("paths", .obj [("/w", .obj [("post", .obj [])])])]

/-- The tool parsed from `c2WSpec`. -/
def c2WTool : ParsedTool :=
  { id := "post_/w"
    name := .str "post__w"
    description := .str "POST /w"
    method := "POST"
    path := "/w"
    selected := true }

theorem c2_doc_order_witness :
    parseApiSpec c2WSpec = parseApiSpec c2WSpec ∧
    docOrder c2WSpec = .ok [("/w", "POST")] :=
  c2_doc_order c2WSpec [c2WTool] rfl

/-! ## Claim C3: tool-name uniqueness -/

/-- Two distinct paths whose slugs collide. -/
def c3CexSpec : Json := .obj [("paths", .obj
  [("/a/b", .obj [("get", .obj [])]), ("/a_b", .obj [("get", .obj [])])])]

/-- Claim C3 fails as stated: the two operations of `c3CexSpec` produce
the same post-slug name `get__a_b`, no numeric suffix is appended, and the
resulting tool list contains the duplicate name twice. -/
theorem c3_counterexample :
    (parseApiSpec c3CexSpec).map (fun ts => ts.map ParsedTool.name)
      = .ok [Json.str "get__a_b", Json.str "get__a_b"] ∧
    ¬ ([Json.str "get__a_b", Json.str "get__a_b"] : List Json).Nodup :=
  ⟨rfl, fun h => (List.nodup_cons.mp h).1 (List.mem_singleton.mpr rfl)⟩

/-- Claim C3 (amended): no collision resolution is performed — every
tool's name is derived from its own operation alone (the per-operation
`nameOf`), so two operations producing the same post-slug name both keep
it and the tool list may contain duplicate names. -/
theorem c3_no_dedup (spec : Json) (tools : List ParsedTool)
    (hp : parseApiSpec spec = .ok tools) :
    docNames spec = .ok (tools.map ParsedTool.name) := by
  obtain ⟨ops, hops, hF⟩ := parse_docOps spec tools hp
  simp only [docNames, hops, okBind]
  refine forall2_mapE_ok _ ?_
  refine List.forall₂_map_right_iff.mpr ?_
  refine hF.imp ?_
  intro pmo t hok
  obtain ⟨hn, ht'⟩ := (toolOfOp_ok_iff _ _ _ _).mp hok
  simp [nameOf, jsGet_ok _ _ hn, ht']

/-- Document used to witness `c3_no_dedup`: its two colliding operations
keep the same name. -/
def c3WSpec : Json := .obj [("paths", .obj
  [("/p/q", .obj [("get", .obj [])]), ("/p_q", .obj [("get", .obj [])])])]

/-- The tools parsed from `c3WSpec`. -/
def c3WTools : List ParsedTool :=
  [{ id := "get_/p/q"
     name := .str "get__p_q"
     description := .str "GET /p/q"
     method := "GET"
     path := "/p/q"
     selected := true },
   { id := "get_/p_q"
     name := .str "get__p_q"
     description := .str "GET /p_q"
     method := "GET"
     path := "/p_q"
     selected := true }]

theorem c3_no_dedup_witness :
    docNames c3WSpec = .ok [Json.str "get__p_q", Json.str "get__p_q"] :=
  c3_no_dedup c3WSpec c3WTools rfl

/-! ## Claim C4: generation refused on empty tool selection -/

/-- Claim C4: whenever tool selection is shown and the selected-tool
filter yields an empty set, `handleGenerate` returns without issuing a
generate request. -/
theorem c4_empty_selection_refused (s : GeneratorState)
    (hshow : s.showToolSelection = true)
    (hsel : (s.parsedTools.filter (fun t => t.selected)).length = 0) :
    handleGenerate s = none := by
  unfold handleGenerate
  split
  · rfl
  · rw [if_pos ⟨by rw [hshow], hsel⟩]

/-- State used to witness `c4_empty_selection_refused`: one parsed but
deselected tool. -/
def c4WState : GeneratorState :=
  { apiSpec := "spec"
    systemPrompt := "prompt"
    baseUrl := ""
    parsedTools := [{ id := "get_/x"
                      name := .str "get__x"
                      description := .str "GET /x"
                      method := "GET"
                      path := "/x"
                      selected := false }]
    showToolSelection := true
    config := defaultConfig }

theorem c4_empty_selection_refused_witness :
    handleGenerate c4WState = none :=
  c4_empty_selection_refused c4WState rfl rfl

/-! ## Claim C5: at least one transport protocol -/

/-- Claim C5: the default configuration selects exactly the `stdio`
transport; a configuration with an empty `protocolTypes` list can never be
saved, because the Save action is disabled for it, so every configuration
the store can reach has a non-empty transport set; consequently every
generation request issued from a reachable configuration carries a
non-empty transport set. -/
theorem c5_transport_nonempty :
    defaultConfig.protocolTypes = [Protocol.stdio] ∧
    (∀ c, ConfigReachable c → c.protocolTypes ≠ []) ∧
    (∀ s req, ConfigReachable s.config → handleGenerate s = some req →
      req.config.protocol_types ≠ []) := by
  have hre : ∀ c, ConfigReachable c → c.protocolTypes ≠ [] := by
    intro c hc
    induction hc with
    | default => simp [defaultConfig]
    | save c t _ hne hp => exact hp
  refine ⟨rfl, hre, ?_⟩
  intro s req hc hgen
  have hfield : req.config.protocol_types = s.config.protocolTypes := by
    unfold handleGenerate at hgen
    split at hgen
    · exact absurd hgen (by simp)
    · split at hgen
      · exact absurd hgen (by simp)
      · cases hgen; rfl
  rw [hfield]
  exact hre _ hc

/-- State used to witness `c5_transport_nonempty`. -/
def c5WState : GeneratorState :=
  { apiSpec := "spec"
    systemPrompt := "prompt"
    baseUrl := ""
    parsedTools := []
    showToolSelection := false
    config := defaultConfig }

/-- The request `handleGenerate` issues from `c5WState`. -/
def c5WReq : GenerateRequest :=
  { api_spec := "spec"
    system_prompt := "prompt"
    base_url := none
    selected_tools := none
    config := { openai_api_key := ""
                mcp_name := "Generated MCP Server"
                protocol_types := [.stdio]
                description := "MCP Server generated from API specification"
                version := "1.0.0"
                author := "" } }

theorem c5_transport_nonempty_witness :
    c5WReq.config.protocol_types ≠ [] :=
  c5_transport_nonempty.2.2 c5WState c5WReq ConfigReachable.default rfl

/-! ## Claim C6: base-URL precedence -/

/-- Claim C6: the base URL sent with a generation request follows the
precedence per-request override (trimmed Base URL field, when non-empty)
over project default (the persisted configuration's `baseUrl`, when
non-empty) over absent. -/
theorem c6_base_url_precedence (s : GeneratorState) (req : GenerateRequest)
    (h : handleGenerate s = some req) :
    (jsTrim s.baseUrl ≠ "" → req.base_url = some (jsTrim s.baseUrl)) ∧
    (jsTrim s.baseUrl = "" → s.config.baseUrl ≠ "" →
      req.base_url = some s.config.baseUrl) ∧
    (jsTrim s.baseUrl = "" → s.config.baseUrl = "" → req.base_url = none) := by
  have hfield : req.base_url =
      (if jsTrim s.baseUrl ≠ "" then some (jsTrim s.baseUrl)
       else if s.config.baseUrl ≠ "" then some s.config.baseUrl
       else none) := by
    unfold handleGenerate at h
    split at h
    · exact absurd h (by simp)
    · split at h
      · exact absurd h (by simp)
      · cases h; rfl
  refine ⟨fun h1 => ?_, fun h1 h2 => ?_, fun h1 h2 => ?_⟩
  · rw [hfield, if_pos h1]
  · rw [hfield, if_neg (by simp [h1]), if_pos h2]
  · rw [hfield, if_neg (by simp [h1]), if_neg (by simp [h2])]

/-- State used to witness `c6_base_url_precedence`: an override is typed
into the Base URL field while a project default is also configured. -/
def c6WState : GeneratorState :=
  { apiSpec := "spec"
    systemPrompt := "prompt"
    baseUrl := " http://override "
    parsedTools := []
    showToolSelection := false
    config := { defaultConfig with baseUrl := "http://default" } }

/-- The request `handleGenerate` issues from `c6WState`. -/
def c6WReq : GenerateRequest :=
  { api_spec := "spec"
    system_prompt := "prompt"
    base_url := some "http://override"
    selected_tools := none
    config := { openai_api_key := ""
                mcp_name := "Generated MCP Server"
                protocol_types := [.stdio]
                description := "MCP Server generated from API specification"
                version := "1.0.0"
                author := "" } }

theorem c6_base_url_precedence_witness :
    jsTrim " http://override " ≠ "" ∧ c6WReq.base_url = some (jsTrim " http://override ") :=
  ⟨by decide, (c6_base_url_precedence c6WState c6WReq rfl).1 (by decide)⟩

/-! ## Claim C9: persistence and update frame -/

/-- Claim C9: only the `config` field of the store is persisted (the
persisted image of a state depends on its `config` alone, never on
`isGenerating`, `isTesting`, `generationResult` or `testResult`);
`updateConfig` touches no transient field; and `updateConfig` changes only
the config fields present in its partial-update argument, leaving every
absent field unchanged. -/
theorem c9_persistence_frame (s s' : AppState) (hc : s.config = s'.config)
    (u : ConfigUpdates) :
    partialize s = partialize s' ∧
    ((updateConfig s u).isGenerating = s.isGenerating ∧
     (updateConfig s u).isTesting = s.isTesting ∧
     (updateConfig s u).generationResult = s.generationResult ∧
     (updateConfig s u).testResult = s.testResult) ∧
    (u.openaiApiKey = none →
      (updateConfig s u).config.openaiApiKey = s.config.openaiApiKey) ∧
    (u.mcpName = none → (updateConfig s u).config.mcpName = s.config.mcpName) ∧
    (u.protocolTypes = none →
      (updateConfig s u).config.protocolTypes = s.config.protocolTypes) ∧
    (u.description = none →
      (updateConfig s u).config.description = s.config.description) ∧
    (u.version = none → (updateConfig s u).config.version = s.config.version) ∧
    (u.author = none → (updateConfig s u).config.author = s.config.author) ∧
    (u.baseUrl = none → (updateConfig s u).config.baseUrl = s.config.baseUrl) := by
  refine ⟨by simp [partialize, hc], ⟨rfl, rfl, rfl, rfl⟩, ?_, ?_, ?_, ?_, ?_, ?_, ?_⟩
  all_goals intro h
  all_goals simp [updateConfig, spreadConfig, h]

/-- States and update used to witness `c9_persistence_frame`: the two
states share a config but differ in every transient field; the update
carries only a new `mcpName`. -/
def c9WState : AppState :=
  { isGenerating := true
    isTesting := true
    generationResult := some "aa"
    testResult := some (.obj [])
    config := defaultConfig }

/-- Second state for the witness, transient fields all different. -/
def c9WState' : AppState :=
  { isGenerating := false
    isTesting := false
    generationResult := none
    testResult := none
    config := defaultConfig }

/-- The partial update for the witness. -/
def c9WUpdate : ConfigUpdates := { mcpName := some "Renamed" }

theorem c9_persistence_frame_witness :
    partialize c9WState = partialize c9WState' ∧
    (updateConfig c9WState c9WUpdate).isGenerating = c9WState.isGenerating ∧
    (updateConfig c9WState c9WUpdate).config.baseUrl = c9WState.config.baseUrl :=
  ⟨(c9_persistence_frame c9WState c9WState' rfl c9WUpdate).1,
   (c9_persistence_frame c9WState c9WState' rfl c9WUpdate).2.1.1,
   (c9_persistence_frame c9WState c9WState' rfl c9WUpdate).2.2.2.2.2.2.2.2 rfl⟩

/-! ## Claim C10: hexadecimal decoding in `downloadZip` -/

theorem hexVal?_lt {c : Char} {x : Nat} (h : hexVal? c = some x) : x < 16 := by
  unfold hexVal? at h
  split_ifs at h with h1 h2 h3 <;> simp only [Option.some.injEq] at h <;> omega

theorem parseHexPair_hex {a b : Char} {x y : Nat}
    (ha : hexVal? a = some x) (hb : hexVal? b = some y) :
    parseHexPair a b = some (16 * x + y) := by
  have hbx : ¬(a = '0' ∧ (b = 'x' ∨ b = 'X')) := by
    rintro ⟨rfl, rfl | rfl⟩ <;> exact Option.noConfusion hb
  unfold parseHexPair
  rw [if_neg hbx, ha, hb]

theorem hexBytes_spec (n : Nat) :
    ∀ l : List Char, l.length ≤ n → (∀ c ∈ l, (hexVal? c).isSome) →
      (hexBytes l).length = l.length / 2 ∧
      ∀ i, i < l.length / 2 →
        (hexBytes l).getD i 0 =
          16 * (hexVal? (l.getD (2 * i) '0')).getD 0
            + (hexVal? (l.getD (2 * i + 1) '0')).getD 0 := by
  induction n with
  | zero =>
    intro l hl _
    have hnil : l = [] := List.length_eq_zero.mp (Nat.le_zero.mp hl)
    subst hnil
    exact ⟨by simp [hexBytes], fun i hi => absurd hi (by simp)⟩
  | succ n ih =>
    intro l hl hhex
    match l with
    | [] => exact ⟨by simp [hexBytes], fun i hi => absurd hi (by simp)⟩
    | [a] =>
      refine ⟨?_, fun i hi => absurd hi ?_⟩
      · have h0 : hexBytes [a] = [] := rfl
        rw [h0]
        simp only [List.length_nil, List.length_singleton]
      · simp only [List.length_singleton]
        omega
    | a :: b :: rest =>
      obtain ⟨x, hx⟩ := Option.isSome_iff_exists.mp (hhex a (by simp))
      obtain ⟨y, hy⟩ := Option.isSome_iff_exists.mp (hhex b (by simp))
      have hlen : rest.length ≤ n := by
        simp only [List.length_cons] at hl; omega
      have hrest := ih rest hlen (fun c hc => hhex c (by simp [hc]))
      have hxlt := hexVal?_lt hx
      have hylt := hexVal?_lt hy
      have hval : (parseHexPair a b).getD 0 % 256 = 16 * x + y := by
        rw [parseHexPair_hex hx hy]
        simp only [Option.getD_some]
        omega
      refine ⟨?_, ?_⟩
      · simp only [hexBytes, List.length_cons, hrest.1]
        omega
      · intro i hi
        cases i with
        | zero =>
          simp only [hexBytes, List.getD_cons_zero, Nat.mul_zero,
            Nat.zero_add, List.getD_cons_succ, hval, hx, hy, Option.getD_some]
        | succ j =>
          have h2 : 2 * (j + 1) = 2 * j + 1 + 1 := by ring
          have h3 : 2 * (j + 1) + 1 = 2 * j + 1 + 1 + 1 := by ring
          simp only [hexBytes, List.getD_cons_succ, h2, h3]
          refine hrest.2 j ?_
          simp only [List.length_cons] at hi
          omega

/-- Claim C10: for every even-length string of hexadecimal-digit pairs,
`downloadZip` produces a byte array of half the length whose i-th byte is
the base-16 value of characters 2i and 2i+1, wrapped in a blob of type
`application/zip`. -/
theorem c10_hex_decode (s : String)
    (hhex : ∀ c ∈ s.data, (hexVal? c).isSome)
    (heven : s.length % 2 = 0) :
    ∃ b, downloadZip s = some b ∧ b.type = "application/zip" ∧
      b.data.length = s.length / 2 ∧
      ∀ i, i < s.length / 2 →
        b.data.getD i 0 =
          16 * (hexVal? (s.data.getD (2 * i) '0')).getD 0
            + (hexVal? (s.data.getD (2 * i + 1) '0')).getD 0 := by
  have hdl : s.length = s.data.length := rfl
  have hs := hexBytes_spec s.data.length s.data le_rfl hhex
  refine ⟨{ data := hexBytes s.data, type := "application/zip" }, ?_, rfl, ?_, ?_⟩
  · simp [downloadZip, heven]
  · rw [hdl]; exact hs.1
  · intro i hi
    rw [hdl] at hi
    exact hs.2 i hi

theorem c10_hex_decode_witness :
    (∀ c ∈ ("0aFf" : String).data, (hexVal? c).isSome) ∧
    ("0aFf" : String).length % 2 = 0 ∧
    (∃ b, downloadZip "0aFf" = some b ∧ b.type = "application/zip" ∧
      b.data.length = ("0aFf" : String).length / 2 ∧
      ∀ i, i < ("0aFf" : String).length / 2 →
        b.data.getD i 0 =
          16 * (hexVal? (("0aFf" : String).data.getD (2 * i) '0')).getD 0
            + (hexVal? (("0aFf" : String).data.getD (2 * i + 1) '0')).getD 0) :=
  ⟨by decide, by decide, c10_hex_decode "0aFf" (by decide) (by decide)⟩

/-! ## Claim C7: displayed tool description -/

/-- An operation declaring an empty description alongside a summary. -/
def c7Op : Json := .obj [("description", .str ""), ("summary", .str "s")]

/-- Specification document exercising the empty description. -/
def c7Spec : Json := .obj [("paths", .obj [("/x", .obj [("get", c7Op)])])]

/-- Claim C7 fails as stated: the operation of `c7Spec` has a description
(the empty string) present, yet the displayed description is the summary
`s` — the `||` fallback treats any falsy description as absent. -/
theorem c7_counterexample :
    jsGet c7Op "description" = .ok (.val (Json.str "")) ∧
    (parseApiSpec c7Spec).map (fun ts => ts.map ParsedTool.description)
      = .ok [Json.str "s"] ∧
    Json.str "s" ≠ Json.str "" :=
  ⟨rfl, rfl, by simp⟩

/-- Claim C7 (amended): for every parsed operation, the displayed tool
description is the operation's own description when present and truthy (in
particular, non-empty), else its summary when present and truthy, else the
upper-cased HTTP method followed by the path. -/
theorem c7_tool_description (spec : Json) (tools : List ParsedTool)
    (hp : parseApiSpec spec = .ok tools) (t : ParsedTool) (ht : t ∈ tools) :
    ∃ path method op, toolOfOp path method op = .ok t ∧
      t.description =
        (if truthyV (jsGetV op "description") then (jsGetV op "description").getJ
         else if truthyV (jsGetV op "summary") then (jsGetV op "summary").getJ
         else Json.str (jsToUpper method ++ " " ++ path)) := by
  obtain ⟨ops, hops, hF⟩ := parse_docOps spec tools hp
  obtain ⟨pmo, hmem, hok⟩ := forall2_exists_left hF t ht
  refine ⟨pmo.1, pmo.2.1, pmo.2.2, hok, ?_⟩
  obtain ⟨hn, ht'⟩ := (toolOfOp_ok_iff _ _ _ _).mp hok
  rw [ht']
  simp only [orJ_eq]

/-- Document and tool used to witness `c7_tool_description`. -/
def c7WSpec : Json :=
  .obj [("paths", .obj [("/v", .obj [("get", .obj [("description", .str "Fetch v")])])])]

/-- The tool parsed from `c7WSpec`. -/
def c7WTool : ParsedTool :=
  { id := "get_/v"
    name := .str "get__v"
    description := .str "Fetch v"
    method := "GET"
    path := "/v"
    selected := true }

theorem c7_tool_description_witness :
    ∃ path method op, toolOfOp path method op = .ok c7WTool ∧
      c7WTool.description =
        (if truthyV (jsGetV op "description") then (jsGetV op "description").getJ
         else if truthyV (jsGetV op "summary") then (jsGetV op "summary").getJ
         else Json.str (jsToUpper method ++ " " ++ path)) :=
  c7_tool_description c7WSpec [c7WTool] rfl c7WTool (List.mem_singleton.mpr rfl)

/-! ## Claim C8: tester server-status indicator -/

/-- Configuration whose first `mcpServers` entry is `null`. -/
def c8CexConfig : Json := .obj [("mcpServers", .obj [("a", .null)])]

/-- Claim C8 fails as stated: the first `mcpServers` entry of
`c8CexConfig` is an entry without a url, yet the status is `unknown`
rather than `inactive` — reading `.url` off the `null` entry throws a
`TypeError` that lands in the outer catch. -/
theorem c8_counterexample :
    checkMcpStatus (some c8CexConfig) (fun _ => .ok) = (.unknown, []) ∧
    McpStatus.unknown ≠ McpStatus.inactive :=
  ⟨rfl, by decide⟩

/-- The list `firstServerUrl` holds zero or one URL. -/
theorem firstServerUrl_cases (input : Option Json) :
    firstServerUrl input = [] ∨ ∃ u, firstServerUrl input = [u] := by
  cases input with
  | none => exact Or.inl rfl
  | some cfg =>
    cases hsv : jsGet cfg "mcpServers" with
    | error e => exact Or.inl (by simp [firstServerUrl, hsv])
    | ok sv =>
      cases hent : jsEntries (sv.orJ (Json.obj [])) with
      | error e => exact Or.inl (by simp [firstServerUrl, hsv, hent])
      | ok entries =>
        cases entries with
        | nil => exact Or.inl (by simp [firstServerUrl, hsv, hent])
        | cons fst rest =>
          obtain ⟨nm, sc⟩ := fst
          cases hurl : jsGet sc "url" with
          | error e => exact Or.inl (by simp [firstServerUrl, hsv, hent, hurl])
          | ok uv =>
            cases htu : truthyV uv with
            | false => exact Or.inl (by simp [firstServerUrl, hsv, hent, hurl, htu])
            | true =>
              exact Or.inr ⟨uv.getJ, by simp [firstServerUrl, hsv, hent, hurl, htu]⟩

/-- Characterization of `checkMcpStatus` against `firstServerUrl`: the
pinged URLs are exactly the first server's url, a present first url
decides the status by the ping alone, and without a first url the status
is never `active`. -/
theorem checkMcpStatus_chr (input : Option Json) (ping : Json → PingOutcome) :
    (checkMcpStatus input ping).2 = firstServerUrl input ∧
    (∀ u, firstServerUrl input = [u] →
      (checkMcpStatus input ping).1 =
        (if ping u = .ok then McpStatus.active else McpStatus.inactive)) ∧
    (firstServerUrl input = [] → (checkMcpStatus input ping).1 ≠ .active) := by
  cases input with
  | none =>
    exact ⟨rfl, fun u hu => absurd hu (by simp [firstServerUrl]),
      fun _ => by simp [checkMcpStatus]⟩
  | some cfg =>
    cases hsv : jsGet cfg "mcpServers" with
    | error e =>
      cases e
      refine ⟨by simp [checkMcpStatus, firstServerUrl, hsv], fun u hu => ?_, fun _ => ?_⟩
      · exact absurd hu (by simp [firstServerUrl, hsv])
      · simp [checkMcpStatus, hsv]
    | ok sv =>
      cases hent : jsEntries (sv.orJ (Json.obj [])) with
      | error e =>
        cases e
        refine ⟨by simp [checkMcpStatus, firstServerUrl, hsv, hent],
          fun u hu => ?_, fun _ => ?_⟩
        · exact absurd hu (by simp [firstServerUrl, hsv, hent])
        · simp [checkMcpStatus, hsv, hent]
      | ok entries =>
        cases entries with
        | nil =>
          refine ⟨by simp [checkMcpStatus, firstServerUrl, hsv, hent],
            fun u hu => ?_, fun _ => ?_⟩
          · exact absurd hu (by simp [firstServerUrl, hsv, hent])
          · simp [checkMcpStatus, hsv, hent]
        | cons fst rest =>
          obtain ⟨nm, sc⟩ := fst
          cases hurl : jsGet sc "url" with
          | error e =>
            cases e
            refine ⟨by simp [checkMcpStatus, firstServerUrl, hsv, hent, hurl],
              fun u hu => ?_, fun _ => ?_⟩
            · exact absurd hu (by simp [firstServerUrl, hsv, hent, hurl])
            · simp [checkMcpStatus, hsv, hent, hurl]
          | ok uv =>
            cases htu : truthyV uv with
            | false =>
              refine ⟨by simp [checkMcpStatus, firstServerUrl, hsv, hent, hurl, htu],
                fun u hu => ?_, fun _ => ?_⟩
              · exact absurd hu (by simp [firstServerUrl, hsv, hent, hurl, htu])
              · simp [checkMcpStatus, hsv, hent, hurl, htu]
            | true =>
              refine ⟨?_, fun u hu => ?_, fun hemp => ?_⟩
              · cases hping : ping uv.getJ <;>
                  simp [checkMcpStatus, firstServerUrl, hsv, hent, hurl, htu, hping]
              · have hu' : u = uv.getJ := by
                  simp [firstServerUrl, hsv, hent, hurl, htu] at hu
                  exact hu.symm
                subst hu'
                cases hping : ping uv.getJ <;>
                  simp [checkMcpStatus, hsv, hent, hurl, htu, hping]
              · exact absurd hemp (by simp [firstServerUrl, hsv, hent, hurl, htu])

/-- Claim C8 (amended): the indicator is decided solely by the first
`mcpServers` entry — the pinged URLs are exactly the first entry's truthy
url; blank or unparseable input yields `unknown`; an empty (or absent)
`mcpServers` mapping yields `inactive`; a first entry whose url read
succeeds but is falsy yields `inactive`, while a `null` first entry throws
and yields `unknown`; a non-ok or failed ping yields `inactive`; and the
status is `active` iff the GET ping of the first server's url returns an
ok response. -/
theorem c8_status_indicator (input : Option Json) (ping : Json → PingOutcome) :
    ((checkMcpStatus input ping).2 = firstServerUrl input) ∧
    (input = none → checkMcpStatus input ping = (.unknown, [])) ∧
    ((checkMcpStatus input ping).1 = .active ↔
      ∃ u, firstServerUrl input = [u] ∧ ping u = .ok) ∧
    (∀ u, firstServerUrl input = [u] → ping u ≠ .ok →
      (checkMcpStatus input ping).1 = .inactive) ∧
    (∀ cfg sv, input = some cfg → jsGet cfg "mcpServers" = .ok sv →
      jsEntries (sv.orJ (Json.obj [])) = .ok [] →
      (checkMcpStatus input ping).1 = .inactive) ∧
    (∀ cfg sv nm sc rest uv, input = some cfg →
      jsGet cfg "mcpServers" = .ok sv →
      jsEntries (sv.orJ (Json.obj [])) = .ok ((nm, sc) :: rest) →
      jsGet sc "url" = .ok uv → truthyV uv = false →
      (checkMcpStatus input ping).1 = .inactive) := by
  obtain ⟨h2, hone, hnone⟩ := checkMcpStatus_chr input ping
  refine ⟨h2, ?_, ?_, ?_, ?_, ?_⟩
  · rintro rfl; rfl
  · constructor
    · intro hact
      rcases firstServerUrl_cases input with hemp | ⟨u, hu⟩
      · exact absurd hact (hnone hemp)
      · refine ⟨u, hu, ?_⟩
        by_contra hpu
        rw [hone u hu, if_neg hpu] at hact
        exact absurd hact (by simp)
    · rintro ⟨u, hu, hpu⟩
      rw [hone u hu, if_pos hpu]
  · intro u hu hpu
    rw [hone u hu, if_neg hpu]
  · rintro cfg sv rfl hsv hent
    simp [checkMcpStatus, hsv, hent]
  · rintro cfg sv nm sc rest uv rfl hsv hent hurl htu
    simp [checkMcpStatus, hsv, hent, hurl, htu]

/-- Input used to witness `c8_status_indicator`: one configured server
with a truthy url and an ok ping. -/
def c8WConfig : Json :=
  .obj [("mcpServers", .obj [("srv", .obj [("url", .str "http://localhost:8080")])])]

theorem c8_status_indicator_witness :
    (checkMcpStatus (some c8WConfig) (fun _ => .ok)).1 = .active :=
  (c8_status_indicator (some c8WConfig) (fun _ => .ok)).2.2.1.mpr
    ⟨Json.str "http://localhost:8080", rfl, rfl⟩

end MCPGen

